import Mathlib

/-!
Verification of the Meow agent-core orchestration substrate.

This file gives a shallow embedding of the pieces of `src/agent_core`
relevant to the queue / claim / status-marking life cycle, the circuit
breaker, the worker execution loops, memory upsert, and scheduler
configuration parsing, and proves (or refutes) the specified properties
about them.

Modelling conventions:
- SQLite rows of `queued_actions` are `Row` values; the table is the list
  `StoreState.rows` kept in insertion order, with `AUTOINCREMENT` modelled
  by `StoreState.nextId` (every inserted row gets an id strictly larger
  than all earlier ones).  Timestamps (`time.time()`) are passed in as an
  explicit `now : Nat` argument.
- JSON payloads and memory values are kept as their serialized `String`
  form (`json.dumps`/`json.loads` round-trips are identities on the
  values the program stores).
- `ORDER BY id ASC` is modelled by `List.mergeSort` on ids, `LIMIT n` by
  `List.take`, and the `UNIQUE` constraint on `idempotency_key` by the
  pre-insert key check that produces `sqlite3.IntegrityError` in the code.
- The store lock (`self._lock`) serializes every critical section, so a
  set of concurrent callers is modelled as an arbitrary sequential
  interleaving of the atomic operations.
-/

namespace AgentCore

/-- A row of the `queued_actions` table (`SharedStateStore._initialize`). -/
structure Row where
  id : Nat
  worker : String
  action_type : String
  payload : String
  idempotency_key : String
  status : String
  created_at : Nat
  updated_at : Nat
deriving Repr, DecidableEq

/-- One entry of the `memory` table: key, serialized value, `updated_at`. -/
structure MemRow where
  key : String
  value : String
  updated_at : Nat
deriving Repr, DecidableEq

/-- The persistent state behind `SharedStateStore`. -/
structure StoreState where
  nextId : Nat
  rows : List Row
  memory : List MemRow
deriving Repr, DecidableEq

/-- Fresh database created by `_initialize` (AUTOINCREMENT starts at 1). -/
def emptyStore : StoreState := { nextId := 1, rows := [], memory := [] }

/-- The list-level upsert behind `set_memory`: overwrite the row holding
`key` in place when one exists, otherwise append a fresh row. -/
def upsertMem (mem : List MemRow) (key value : String) (now : Nat) : List MemRow :=
  if mem.any (fun kv => kv.key == key) then
    mem.map (fun kv =>
      if kv.key == key then { kv with value := value, updated_at := now } else kv)
  else
    mem ++ [{ key := key, value := value, updated_at := now }]

/-- `SharedStateStore.set_memory`: SQL upsert
(`INSERT ... ON CONFLICT(key) DO UPDATE SET value, updated_at`). -/
def set_memory (s : StoreState) (key value : String) (now : Nat) : StoreState :=
  { s with memory := upsertMem s.memory key value now }

/-- `SharedStateStore.get_memory`: `SELECT value FROM memory WHERE key = ?`,
returning `default` when no row matches. -/
def get_memory (s : StoreState) (key : String) (dflt : String) : String :=
  match s.memory.find? (fun kv => kv.key == key) with
  | some kv => kv.value
  | none => dflt

/-- Whether some queued action already carries this idempotency key
(the `UNIQUE` constraint on `idempotency_key`). -/
def hasKey (s : StoreState) (key : String) : Bool :=
  s.rows.any (fun r => r.idempotency_key == key)

/-- `SharedStateStore.queue_action`: insert a `'queued'` row, returning
`false` without side effect when the `UNIQUE` idempotency-key constraint
fires (`sqlite3.IntegrityError`). -/
def queue_action (s : StoreState) (worker atype payload key : String) (now : Nat) :
    Bool × StoreState :=
  if hasKey s key then
    (false, s)
  else
    (true,
     { s with
        nextId := s.nextId + 1,
        rows := s.rows ++
          [{ id := s.nextId, worker := worker, action_type := atype, payload := payload,
             idempotency_key := key, status := "queued", created_at := now,
             updated_at := now }] })

/-- The `WHERE worker = ? AND status = 'queued'` selection predicate. -/
def isQueuedFor (w : String) (r : Row) : Bool :=
  r.worker == w && r.status == "queued"

/-- The queued actions of worker `w`, in table order. -/
def queuedRows (s : StoreState) (w : String) : List Row :=
  s.rows.filter (isQueuedFor w)

/-- The `SELECT ... WHERE worker = ? AND status = 'queued' ORDER BY id
ASC LIMIT ?` part of `claim_actions`. -/
def claimSelected (s : StoreState) (worker : String) (lim : Nat) : List Row :=
  ((s.rows.filter (isQueuedFor worker)).mergeSort
      (fun a b => decide (a.id ≤ b.id))).take lim

/-- `SharedStateStore.claim_actions`: select up to `lim` queued rows of
`worker` ordered by ascending id, flip exactly those (`WHERE id IN ids`)
to `'processing'` inside the same critical section, and return the
selected rows. -/
def claim_actions (s : StoreState) (worker : String) (lim : Nat) (now : Nat) :
    List Row × StoreState :=
  (claimSelected s worker lim,
   { s with rows := s.rows.map (fun r =>
       if ((claimSelected s worker lim).map Row.id).contains r.id then
         { r with status := "processing", updated_at := now }
       else r) })

/-- `SharedStateStore.mark_action_status`: unconditional
`UPDATE queued_actions SET status = ?, updated_at = ? WHERE id = ?`. -/
def mark_action_status (s : StoreState) (action_id : Nat) (status : String) (now : Nat) :
    StoreState :=
  { s with rows := s.rows.map (fun r =>
      if r.id == action_id then { r with status := status, updated_at := now } else r) }

/-- Status of the row with the given id, when present. -/
def rowStatus (s : StoreState) (action_id : Nat) : Option String :=
  (s.rows.find? (fun r => r.id == action_id)).map Row.status

/-- Well-formedness maintained by the store: table ids strictly increase
in insertion order and stay below the AUTOINCREMENT counter. -/
def WF (s : StoreState) : Prop :=
  s.rows.Pairwise (fun a b => a.id < b.id) ∧ ∀ r ∈ s.rows, r.id < s.nextId

instance : DecidableRel (fun a b : Row => a.id < b.id) := fun a b =>
  inferInstanceAs (Decidable (a.id < b.id))

instance (n : Nat) : DecidablePred (fun r : Row => r.id < n) := fun r =>
  inferInstanceAs (Decidable (r.id < n))

instance (s : StoreState) : Decidable (WF s) :=
  inferInstanceAs (Decidable (_ ∧ _))

/-! ### Circuit breaker (`scheduler.CircuitBreaker`) -/

/-- State of a per-worker circuit breaker. -/
structure CircuitBreaker where
  name : String
  failure_threshold : Nat
  cooldown_cycles : Nat
  failures : Nat
  cooldown_remaining : Nat
deriving Repr, DecidableEq

namespace CircuitBreaker

/-- `CircuitBreaker.__init__`: thresholds are clamped with `max(1, _)`. -/
def init (name : String) (failure_threshold cooldown_cycles : Int) : CircuitBreaker :=
  { name := name
    failure_threshold := (max 1 failure_threshold).toNat
    cooldown_cycles := (max 1 cooldown_cycles).toNat
    failures := 0
    cooldown_remaining := 0 }

/-- `CircuitBreaker.can_run`: while cooling down, decrement the counter
and report `false`; otherwise report `true`. -/
def can_run (b : CircuitBreaker) : Bool × CircuitBreaker :=
  if b.cooldown_remaining > 0 then
    (false, { b with cooldown_remaining := b.cooldown_remaining - 1 })
  else
    (true, b)

/-- `CircuitBreaker.success`: reset the consecutive-failure counter. -/
def success (b : CircuitBreaker) : CircuitBreaker :=
  { b with failures := 0 }

/-- `CircuitBreaker.fail`: bump the failure counter; on reaching the
threshold, reset it and open the breaker for `cooldown_cycles` checks. -/
def fail (b : CircuitBreaker) : CircuitBreaker :=
  let f := b.failures + 1
  if b.failure_threshold ≤ f then
    { b with failures := 0, cooldown_remaining := b.cooldown_cycles }
  else
    { b with failures := f }

end CircuitBreaker

/-! ### Workers (`terminal_worker.py`, `browser_worker.py`) -/

/-- Observable side effects of executing one action. -/
inductive Effect where
  | event (name : String)
  | subprocessRun (command : List String)
  | sleep (hundredths : Nat)
deriving Repr, DecidableEq

/-- `TerminalWorker.ALLOWLIST`. -/
def ALLOWLIST : List String := ["/bin/echo", "/usr/bin/printf"]

/-- `TerminalWorker._vet_command`: refuse the empty command and any
executable outside the allowlist. -/
def vet_command (command : List String) : Except String Unit :=
  match command with
  | [] => Except.error "Refusing empty command"
  | executable :: _ =>
      if ALLOWLIST.contains executable then Except.ok ()
      else Except.error ("Executable not in allowlist: " ++ executable)

/-- `TerminalWorker._execute_action` on a command payload, returning the
trace of side effects together with the outcome.  `runOk` abstracts
whether `subprocess.run(command, check=True)` exits successfully; running
the subprocess is itself a side effect even when it fails. -/
def execute_action (dry_run : Bool) (runOk : List String → Bool) (command : List String) :
    List Effect × Except String Unit :=
  match vet_command command with
  | Except.error e => ([], Except.error e)
  | Except.ok _ =>
      if dry_run then
        ([Effect.event "terminal_action_started", Effect.sleep 2,
          Effect.event "terminal_action_completed"], Except.ok ())
      else if runOk command then
        ([Effect.event "terminal_action_started", Effect.subprocessRun command,
          Effect.event "terminal_action_completed"], Except.ok ())
      else
        ([Effect.event "terminal_action_started", Effect.subprocessRun command],
         Except.error "subprocess failed")

/-- `BrowserWorker._perform_action`: emit the start event, simulate (or
perform) the browser action, emit the completion event.  There is no
allowlist check anywhere on this path; the outcome is always success. -/
def perform_action (dry_run : Bool) (target_url : String) : List Effect × Except String Unit :=
  ([Effect.event "browser_action_started", Effect.sleep (if dry_run then 5 else 10),
    Effect.event ("browser_action_completed:" ++ target_url)], Except.ok ())

/-- The claimed-batch loop shared by `TerminalWorker.run_cycle` and
`BrowserWorker.run_cycle`: execute each action in turn; on success mark
it `'done'`; on the first failure mark it `'failed'` and re-raise,
leaving the rest of the batch untouched.  `ex` abstracts the body
(`_execute_action` / `_perform_action`) of the per-action `try`. -/
def run_batch (ex : Row → Except String Unit) (now : Nat) :
    List Row → StoreState → StoreState × Except String Unit
  | [], s => (s, Except.ok ())
  | a :: rest, s =>
      match ex a with
      | Except.ok _ => run_batch ex now rest (mark_action_status s a.id "done" now)
      | Except.error e => (mark_action_status s a.id "failed" now, Except.error e)

/-- The claim-then-execute portion of a worker's `run_cycle` (the batch
limit in both workers is 10). -/
def worker_run_cycle (w : String) (ex : Row → Except String Unit) (s : StoreState) (now : Nat) :
    StoreState × Except String Unit :=
  let claimed := claim_actions s w 10 now
  run_batch ex now claimed.1 claimed.2

/-! ### Scheduler configuration (`Scheduler._parse_scheduler_config`) -/

/-- A value found in the configuration document at a numeric key: either
an `int`-convertible value, or one on which Python's `int()` raises
`ValueError` (for example the string `"oops"`). -/
inductive ConfigValue where
  | int (n : Int)
  | malformed
deriving Repr, DecidableEq

/-- Python's `int(...)` conversion. -/
def toInt : ConfigValue → Except String Int
  | ConfigValue.int n => Except.ok n
  | ConfigValue.malformed => Except.error "invalid literal for int() with base 10"

/-- Whether `int(...)` succeeds on the value. -/
def ConfigValue.convertible : ConfigValue → Bool
  | ConfigValue.int _ => true
  | ConfigValue.malformed => false

/-- The `scheduler` section of the configuration document; `none` models
a missing key (`dict.get` then falls back to the coded default). -/
structure RawSchedulerSection where
  interval_seconds : Option ConfigValue
  jitter_seconds : Option ConfigValue
  worker_timeout_seconds : Option ConfigValue
  breaker_failure_threshold : Option ConfigValue
  breaker_cooldown_cycles : Option ConfigValue
  dry_run : Option Bool
deriving Repr, DecidableEq

/-- `SchedulerConfig` dataclass. -/
structure SchedulerConfig where
  interval_seconds : Int
  jitter_seconds : Int
  dry_run : Bool
  worker_timeout_seconds : Int
  breaker_failure_threshold : Int
  breaker_cooldown_cycles : Int
deriving Repr, DecidableEq

/-- `Scheduler._parse_scheduler_config`: convert each numeric field with
`int()` in source order (the first malformed value raises), then clamp
out-of-range interval / jitter / timeout values to the coded defaults. -/
def parse_scheduler_config (cfg : RawSchedulerSection) : Except String SchedulerConfig :=
  match toInt (cfg.interval_seconds.getD (ConfigValue.int 60)),
        toInt (cfg.jitter_seconds.getD (ConfigValue.int 5)),
        toInt (cfg.worker_timeout_seconds.getD (ConfigValue.int 20)),
        toInt (cfg.breaker_failure_threshold.getD (ConfigValue.int 3)),
        toInt (cfg.breaker_cooldown_cycles.getD (ConfigValue.int 3)) with
  | Except.error e, _, _, _, _ => Except.error e
  | _, Except.error e, _, _, _ => Except.error e
  | _, _, Except.error e, _, _ => Except.error e
  | _, _, _, Except.error e, _ => Except.error e
  | _, _, _, _, Except.error e => Except.error e
  | Except.ok interval0, Except.ok jitter0, Except.ok timeout0, Except.ok ft, Except.ok cc =>
      Except.ok
        { interval_seconds := if interval0 ≤ 0 then 60 else interval0
          jitter_seconds := if jitter0 < 0 then 0 else jitter0
          dry_run := cfg.dry_run.getD true
          worker_timeout_seconds := if timeout0 ≤ 0 then 20 else timeout0
          breaker_failure_threshold := ft
          breaker_cooldown_cycles := cc }

/-! ## Helper lemmas -/

lemma find?_upsertMem (mem : List MemRow) (k v : String) (now : Nat) :
    (upsertMem mem k v now).find? (fun kv => kv.key == k)
      = some { key := k, value := v, updated_at := now } := by
  induction mem with
  | nil => simp [upsertMem]
  | cons hd tl ih =>
      by_cases hh : (hd.key == k) = true
      · have hk : hd.key = k := by simpa using hh
        simp [upsertMem, List.any_cons, hh, hk]
      · have hhb : (hd.key == k) = false := by simpa using hh
        have hf :
            (if (hd.key == k) = true
              then { hd with value := v, updated_at := now } else hd) = hd := if_neg hh
        have hstep : upsertMem (hd :: tl) k v now = hd :: upsertMem tl k v now := by
          unfold upsertMem
          simp only [List.any_cons, hhb, Bool.false_or]
          by_cases hta : (tl.any fun kv => kv.key == k) = true
          · simp [hta, hf]
            exact fun hk => absurd (by simp [hk] : (hd.key == k) = true) hh
          · have htaf : (tl.any fun kv => kv.key == k) = false := by simpa using hta
            simp [htaf]
        rw [hstep, List.find?_cons_of_neg _ (by simpa using hh), ih]

lemma pairwise_lt_id_inj {l : List Row} (h : l.Pairwise (fun a b => a.id < b.id))
    {r t : Row} (hr : r ∈ l) (ht : t ∈ l) (hid : r.id = t.id) : r = t := by
  induction l with
  | nil => cases hr
  | cons hd tl ih =>
      rcases List.pairwise_cons.mp h with ⟨hhd, htl⟩
      rcases List.mem_cons.mp hr with rfl | hr₂
      · rcases List.mem_cons.mp ht with rfl | ht₂
        · rfl
        · exact absurd hid (by have := hhd t ht₂; omega)
      · rcases List.mem_cons.mp ht with rfl | ht₂
        · exact absurd hid (by have := hhd r hr₂; omega)
        · exact ih htl hr₂ ht₂

lemma nodup_ids {l : List Row} (h : l.Pairwise (fun a b => a.id < b.id)) :
    (l.map Row.id).Nodup := by
  have hm : (l.map Row.id).Pairwise (· < ·) := List.pairwise_map.mpr h
  exact hm.imp (fun hab => Nat.ne_of_lt hab)

lemma WF.rows_nodup {s : StoreState} (h : WF s) : s.rows.Nodup :=
  h.1.imp (fun hab he => absurd (he ▸ hab) (lt_irrefl _))

lemma WF.queued_pairwise {s : StoreState} (h : WF s) (w : String) :
    (queuedRows s w).Pairwise (fun a b => a.id < b.id) :=
  List.Pairwise.sublist (List.filter_sublist _) h.1

lemma find?_id_of_mem {l : List Row} (hnd : l.Pairwise (fun a b => a.id < b.id))
    {r : Row} (hr : r ∈ l) : l.find? (fun t => t.id == r.id) = some r := by
  induction l with
  | nil => cases hr
  | cons hd tl ih =>
      rcases List.mem_cons.mp hr with rfl | hr₂
      · exact List.find?_cons_of_pos _ (by simp)
      · have hlt : hd.id < r.id := (List.pairwise_cons.mp hnd).1 r hr₂
        rw [List.find?_cons_of_neg _ (by simp; omega)]
        exact ih (List.pairwise_cons.mp hnd).2 hr₂

lemma WF_map_id_preserving {s : StoreState} (h : WF s) (f : Row → Row)
    (hf : ∀ r, (f r).id = r.id) : WF { s with rows := s.rows.map f } := by
  constructor
  · rw [List.pairwise_map]
    exact h.1.imp (fun hab => by rw [hf, hf]; exact hab)
  · intro r hr
    rcases List.mem_map.mp hr with ⟨t, ht, rfl⟩
    rw [hf]
    exact h.2 t ht

lemma WF_queue_action {s : StoreState} (h : WF s) (w a p k : String) (now : Nat) :
    WF ((queue_action s w a p k now).2) := by
  unfold queue_action
  by_cases hk : hasKey s k = true
  · simpa [hk] using h
  · rw [if_neg hk]
    constructor
    · rw [List.pairwise_append]
      exact ⟨h.1, by simp, fun x hx y hy => by
        rcases List.mem_singleton.mp hy with rfl
        exact h.2 x hx⟩
    · intro r hr
      rcases List.mem_append.mp hr with hr₂ | hr₂
      · exact Nat.lt_succ_of_lt (h.2 r hr₂)
      · rcases List.mem_singleton.mp hr₂ with rfl
        exact Nat.lt_succ_self _

lemma WF_claim_actions {s : StoreState} (h : WF s) (w : String) (lim now : Nat) :
    WF ((claim_actions s w lim now).2) :=
  WF_map_id_preserving h _ (fun r => by
    by_cases hc : (((claimSelected s w lim).map Row.id).contains r.id) = true
    · rw [if_pos hc]
    · rw [if_neg hc])

lemma WF_mark_action_status {s : StoreState} (h : WF s) (i : Nat) (st : String) (now : Nat) :
    WF (mark_action_status s i st now) :=
  WF_map_id_preserving h _ (fun r => by
    by_cases hc : (r.id == i) = true
    · rw [if_pos hc]
    · rw [if_neg hc])

lemma sortById_filter {s : StoreState} (h : WF s) (w : String) :
    (s.rows.filter (isQueuedFor w)).mergeSort (fun a b => decide (a.id ≤ b.id))
      = s.rows.filter (isQueuedFor w) := by
  apply List.mergeSort_of_sorted
  exact (WF.queued_pairwise h w).imp (fun hab => by
    simpa using Nat.le_of_lt hab)

lemma claimSelected_eq {s : StoreState} (h : WF s) (w : String) (lim : Nat) :
    claimSelected s w lim = (queuedRows s w).take lim := by
  unfold claimSelected
  rw [sortById_filter h]
  rfl

/-- The new row table after a claim, expressed with plain membership in
the selected batch instead of the id `IN` test. -/
lemma claim_rows_eq {s : StoreState} (h : WF s) (w : String) (lim now : Nat) :
    ((claim_actions s w lim now).2).rows
      = s.rows.map (fun r =>
          if r ∈ (queuedRows s w).take lim then
            { r with status := "processing", updated_at := now }
          else r) := by
  unfold claim_actions
  apply List.map_congr_left
  intro r hr
  by_cases hrT : r ∈ (queuedRows s w).take lim
  · have hc : (((claimSelected s w lim).map Row.id).contains r.id) = true := by
      rw [claimSelected_eq h]
      simpa using List.mem_map_of_mem Row.id hrT
    rw [if_pos hc, if_pos hrT]
  · have hc : (((claimSelected s w lim).map Row.id).contains r.id) = false := by
      rw [claimSelected_eq h]
      have hnotin : r.id ∉ ((queuedRows s w).take lim).map Row.id := by
        intro hc₂
        rcases List.mem_map.mp hc₂ with ⟨t, htmem, htid⟩
        have htrows : t ∈ s.rows :=
          List.mem_of_mem_filter (List.mem_of_mem_take htmem)
        have hteq : t = r := pairwise_lt_id_inj h.1 htrows hr htid
        exact hrT (hteq ▸ htmem)
      simpa using hnotin
    rw [if_neg (by simp only [hc]; decide), if_neg hrT]

/-- Flipping the first `n` matches of `p` with a `p`-falsifying update
removes exactly those from the filter: what remains queued is the
`drop n` of the original selection. -/
lemma filter_map_proc_take (p : Row → Bool) (proc : Row → Row)
    (hproc : ∀ r, p (proc r) = false) :
    ∀ (l : List Row), l.Nodup → ∀ (n : Nat),
      (l.map (fun r => if r ∈ (l.filter p).take n then proc r else r)).filter p
        = (l.filter p).drop n := by
  intro l
  induction l with
  | nil => intro _ n; simp
  | cons hd tl ih =>
      intro hnd n
      rcases List.nodup_cons.mp hnd with ⟨hhd, htl⟩
      by_cases hp : p hd = true
      · have hfil : (hd :: tl).filter p = hd :: tl.filter p := List.filter_cons_of_pos hp
        cases n with
        | zero =>
            have hmap : (hd :: tl).map
                (fun r => if r ∈ ((hd :: tl).filter p).take 0 then proc r else r)
                = hd :: tl := by
              simp
            rw [hmap, List.drop_zero]
        | succ m =>
            rw [hfil, List.take_succ_cons, List.drop_succ_cons, List.map_cons,
              if_pos (List.mem_cons_self hd _)]
            have htail :
                tl.map (fun r => if r ∈ hd :: (tl.filter p).take m then proc r else r)
                  = tl.map (fun r => if r ∈ (tl.filter p).take m then proc r else r) := by
              apply List.map_congr_left
              intro r hr
              have hne : r ≠ hd := fun he => hhd (he ▸ hr)
              by_cases hmem : r ∈ (tl.filter p).take m
              · rw [if_pos (List.mem_cons_of_mem _ hmem), if_pos hmem]
              · rw [if_neg ?hno, if_neg hmem]
                case hno =>
                  intro hcc
                  rcases List.mem_cons.mp hcc with he | hm
                  · exact hne he
                  · exact hmem hm
            rw [List.filter_cons_of_neg (by simp [hproc]), htail]
            exact ih htl m
      · have hfil : (hd :: tl).filter p = tl.filter p := List.filter_cons_of_neg hp
        rw [hfil, List.map_cons]
        have hhdT : hd ∉ (tl.filter p).take n := fun hmem =>
          hp (List.of_mem_filter (List.mem_of_mem_take hmem))
        rw [if_neg hhdT, List.filter_cons_of_neg hp]
        exact ih htl n

/-- After a claim, the still-queued rows of the worker are exactly the
rows beyond the claimed prefix, unchanged. -/
lemma queuedRows_claim {s : StoreState} (h : WF s) (w : String) (lim now : Nat) :
    queuedRows ((claim_actions s w lim now).2) w = (queuedRows s w).drop lim := by
  have hrows := claim_rows_eq h w lim now
  unfold queuedRows at hrows ⊢
  rw [hrows]
  exact filter_map_proc_take (isQueuedFor w) _
    (fun r => by
      have hpq : (("processing" : String) == "queued") = false := by decide
      simp [isQueuedFor, hpq])
    s.rows (WF.rows_nodup h) lim

/-! ## Claims -/

/-- C1: a `queue_action` call with a fresh idempotency key returns `true`
and appends exactly one `'queued'` row carrying that key; after that, any
further `queue_action` call with the same key returns `false` and leaves
the `queued_actions` table unchanged, so exactly one row with the key
exists. -/
theorem queue_action_idempotent_insert
    (s : StoreState) (w a p k : String) (now : Nat) (h : hasKey s k = false) :
    (queue_action s w a p k now).1 = true
    ∧ ((queue_action s w a p k now).2).rows
        = s.rows ++
          [{ id := s.nextId, worker := w, action_type := a, payload := p,
             idempotency_key := k, status := "queued", created_at := now,
             updated_at := now }]
    ∧ (((queue_action s w a p k now).2).rows.filter
          (fun r => r.idempotency_key == k)).length = 1
    ∧ ∀ w₂ a₂ p₂ (now₂ : Nat),
        queue_action ((queue_action s w a p k now).2) w₂ a₂ p₂ k now₂
          = (false, (queue_action s w a p k now).2) := by
  have hq : queue_action s w a p k now
      = (true,
         { s with
            nextId := s.nextId + 1,
            rows := s.rows ++
              [{ id := s.nextId, worker := w, action_type := a, payload := p,
                 idempotency_key := k, status := "queued", created_at := now,
                 updated_at := now }] }) := by
    unfold queue_action
    rw [h]
    rfl
  have hall : ∀ r ∈ s.rows, ¬(r.idempotency_key = k) := by simpa [hasKey] using h
  have hfilter : s.rows.filter (fun r => r.idempotency_key == k) = [] := by
    rw [List.filter_eq_nil_iff]
    intro r hr
    simpa using hall r hr
  have hkey : hasKey ((queue_action s w a p k now).2) k = true := by
    rw [hq]
    simp [hasKey]
  refine ⟨by rw [hq], by rw [hq], ?_, ?_⟩
  · rw [hq]
    simp [List.filter_append, hfilter]
  · intro w₂ a₂ p₂ now₂
    have hkey₂ := hkey
    rw [hq] at hkey₂
    rw [hq]
    unfold queue_action
    rw [hkey₂]
    simp

/-- C1 witness: inserting under a fresh key into the empty store. -/
theorem queue_action_idempotent_insert_witness :
    hasKey emptyStore "k0" = false
    ∧ (queue_action emptyStore "terminal" "command" "{}" "k0" 7).1 = true :=
  ⟨by decide,
   (queue_action_idempotent_insert emptyStore "terminal" "command" "{}" "k0" 7 (by decide)).1⟩

/-- Breaker used for the C5 scenario: `failure_threshold=3`,
`cooldown_cycles=2`. -/
def demoBreaker : CircuitBreaker := CircuitBreaker.init "worker" 3 2

/-- C5: with `failure_threshold=3` and `cooldown_cycles=2`, three
consecutive `fail` calls trip the breaker: `can_run` answers `false` for
exactly the next two checks and `true` on the one after; and a `success`
interleaved before the third `fail` returns the breaker to its initial
state (failure counter 0, no cooldown), so nothing is tripped. -/
theorem breaker_trip_and_recovery :
    ((CircuitBreaker.fail (CircuitBreaker.fail (CircuitBreaker.fail demoBreaker))).can_run.1
        = false
      ∧ ((CircuitBreaker.fail (CircuitBreaker.fail
            (CircuitBreaker.fail demoBreaker))).can_run.2.can_run).1 = false
      ∧ (((CircuitBreaker.fail (CircuitBreaker.fail
            (CircuitBreaker.fail demoBreaker))).can_run.2.can_run).2.can_run).1 = true)
    ∧ ∀ k : Nat, k < 3 →
        CircuitBreaker.success (Nat.iterate CircuitBreaker.fail k demoBreaker) = demoBreaker := by
  refine ⟨by decide, ?_⟩
  intro k hk
  interval_cases k <;> decide

/-- C5 witness: a `success` after two `fail` calls restores the initial
breaker state. -/
theorem breaker_trip_and_recovery_witness :
    CircuitBreaker.success (Nat.iterate CircuitBreaker.fail 2 demoBreaker) = demoBreaker :=
  breaker_trip_and_recovery.2 2 (by decide)

/-- C9: `set_memory` followed by `get_memory` on the same key returns the
value just written, for every prior store state (last write wins), and a
second `set_memory` on an existing key overwrites rather than erroring. -/
theorem set_memory_last_write_wins (s : StoreState) (k v d : String) (now : Nat) :
    get_memory (set_memory s k v now) k d = v
    ∧ ∀ v₂ (now₂ : Nat),
        get_memory (set_memory (set_memory s k v now) k v₂ now₂) k d = v₂ := by
  constructor
  · simp [get_memory, set_memory, find?_upsertMem]
  · intro v₂ now₂
    simp [get_memory, set_memory, find?_upsertMem]

/-- C7 counterexample: the browser worker performs a claimed action with
observable side effects and a success outcome although no vetting step
exists on its path — no command/action allowlist is consulted at all, so
an action outside any allowlist is still executed (here in real,
non-dry-run mode). -/
theorem browser_action_executed_without_vetting :
    perform_action false "https://example.local/tasks"
      = ([Effect.event "browser_action_started", Effect.sleep 10,
          Effect.event "browser_action_completed:https://example.local/tasks"],
         Except.ok ()) := rfl

/-- C7 amended: the terminal worker's vetting rejects the empty command
and any command whose executable is outside `ALLOWLIST` before any side
effect occurs, independently of the dry-run flag; the browser worker, in
contrast, performs every claimed action without any allowlist check. -/
theorem terminal_vetting_blocks_disallowed
    (d : Bool) (runOk : List String → Bool) (exe : String) (rest : List String)
    (h : ALLOWLIST.contains exe = false) :
    execute_action d runOk (exe :: rest)
        = ([], Except.error ("Executable not in allowlist: " ++ exe))
    ∧ execute_action d runOk [] = ([], Except.error "Refusing empty command")
    ∧ ∀ d₂ u, (perform_action d₂ u).2 = Except.ok () ∧ (perform_action d₂ u).1 ≠ [] := by
  have hmem : exe ∉ ALLOWLIST := by simpa using h
  refine ⟨?_, ?_, ?_⟩
  · simp [execute_action, vet_command, hmem]
  · simp [execute_action, vet_command]
  · intro d₂ u
    exact ⟨rfl, by simp [perform_action]⟩

/-- C7 witness: `/bin/rm` is rejected with no side effects, in dry-run
and real mode alike. -/
theorem terminal_vetting_blocks_disallowed_witness :
    execute_action true (fun _ => true) ["/bin/rm", "-rf"]
      = ([], Except.error "Executable not in allowlist: /bin/rm") :=
  (terminal_vetting_blocks_disallowed true (fun _ => true) "/bin/rm" ["-rf"] (by decide)).1

/-- A configuration document whose `interval_seconds` is a value that
Python's `int()` rejects (for example the string `"oops"`). -/
def badSchedulerSection : RawSchedulerSection :=
  { interval_seconds := some ConfigValue.malformed
    jitter_seconds := none
    worker_timeout_seconds := none
    breaker_failure_threshold := none
    breaker_cooldown_cycles := none
    dry_run := none }

/-- C8 counterexample: scheduler-configuration parsing is NOT total —
on a document with a malformed `interval_seconds`, the `int()` conversion
raises and `_parse_scheduler_config` propagates the `ValueError` instead
of substituting a default. -/
theorem parse_scheduler_config_raises_on_malformed :
    parse_scheduler_config badSchedulerSection
      = Except.error "invalid literal for int() with base 10" := rfl

/-- C8 amended: when each of the five numeric fields is missing or
`int()`-convertible, parsing succeeds (missing fields get the coded
defaults; out-of-range values are clamped with a warning) and the result
satisfies `interval_seconds > 0`, `jitter_seconds ≥ 0` and
`worker_timeout_seconds > 0`; a field value on which `int()` raises
aborts startup instead. -/
theorem parse_scheduler_config_safe_on_convertible (cfg : RawSchedulerSection)
    (h1 : (cfg.interval_seconds.getD (ConfigValue.int 60)).convertible = true)
    (h2 : (cfg.jitter_seconds.getD (ConfigValue.int 5)).convertible = true)
    (h3 : (cfg.worker_timeout_seconds.getD (ConfigValue.int 20)).convertible = true)
    (h4 : (cfg.breaker_failure_threshold.getD (ConfigValue.int 3)).convertible = true)
    (h5 : (cfg.breaker_cooldown_cycles.getD (ConfigValue.int 3)).convertible = true) :
    ∃ out, parse_scheduler_config cfg = Except.ok out
      ∧ 0 < out.interval_seconds
      ∧ 0 ≤ out.jitter_seconds
      ∧ 0 < out.worker_timeout_seconds := by
  obtain ⟨n1, e1⟩ : ∃ n, cfg.interval_seconds.getD (ConfigValue.int 60) = ConfigValue.int n := by
    cases hval : cfg.interval_seconds.getD (ConfigValue.int 60) with
    | int n => exact ⟨n, rfl⟩
    | malformed => rw [hval] at h1; simp [ConfigValue.convertible] at h1
  obtain ⟨n2, e2⟩ : ∃ n, cfg.jitter_seconds.getD (ConfigValue.int 5) = ConfigValue.int n := by
    cases hval : cfg.jitter_seconds.getD (ConfigValue.int 5) with
    | int n => exact ⟨n, rfl⟩
    | malformed => rw [hval] at h2; simp [ConfigValue.convertible] at h2
  obtain ⟨n3, e3⟩ :
      ∃ n, cfg.worker_timeout_seconds.getD (ConfigValue.int 20) = ConfigValue.int n := by
    cases hval : cfg.worker_timeout_seconds.getD (ConfigValue.int 20) with
    | int n => exact ⟨n, rfl⟩
    | malformed => rw [hval] at h3; simp [ConfigValue.convertible] at h3
  obtain ⟨n4, e4⟩ :
      ∃ n, cfg.breaker_failure_threshold.getD (ConfigValue.int 3) = ConfigValue.int n := by
    cases hval : cfg.breaker_failure_threshold.getD (ConfigValue.int 3) with
    | int n => exact ⟨n, rfl⟩
    | malformed => rw [hval] at h4; simp [ConfigValue.convertible] at h4
  obtain ⟨n5, e5⟩ :
      ∃ n, cfg.breaker_cooldown_cycles.getD (ConfigValue.int 3) = ConfigValue.int n := by
    cases hval : cfg.breaker_cooldown_cycles.getD (ConfigValue.int 3) with
    | int n => exact ⟨n, rfl⟩
    | malformed => rw [hval] at h5; simp [ConfigValue.convertible] at h5
  have hp : parse_scheduler_config cfg
      = Except.ok
          { interval_seconds := if n1 ≤ 0 then 60 else n1
            jitter_seconds := if n2 < 0 then 0 else n2
            dry_run := cfg.dry_run.getD true
            worker_timeout_seconds := if n3 ≤ 0 then 20 else n3
            breaker_failure_threshold := n4
            breaker_cooldown_cycles := n5 } := by
    unfold parse_scheduler_config
    rw [e1, e2, e3, e4, e5]
    rfl
  refine ⟨_, hp, ?_, ?_, ?_⟩
  · dsimp only
    split <;> omega
  · dsimp only
    split <;> omega
  · dsimp only
    split <;> omega

/-- C8 witness: the empty scheduler section (all keys missing) parses to
the documented defaults, which satisfy the bounds. -/
theorem parse_scheduler_config_safe_on_convertible_witness :
    ∃ out, parse_scheduler_config
        { interval_seconds := none, jitter_seconds := none, worker_timeout_seconds := none,
          breaker_failure_threshold := none, breaker_cooldown_cycles := none,
          dry_run := none }
        = Except.ok out
      ∧ 0 < out.interval_seconds
      ∧ 0 ≤ out.jitter_seconds
      ∧ 0 < out.worker_timeout_seconds :=
  parse_scheduler_config_safe_on_convertible _
    (by decide) (by decide) (by decide) (by decide) (by decide)

/-- C2: `claim_actions w n` returns exactly the queued actions of `w`
with the `n` smallest ids — the batch is the `take n` of the queued rows,
strictly ascending in id, every returned row is a queued row of `w`, its
length is `min n (#queued)`, every returned id is below every
non-returned queued id — and in the same step exactly the returned rows
are flipped to `'processing'` while every other row is left unchanged. -/
theorem claim_actions_fifo (s : StoreState) (w : String) (lim now : Nat) (h : WF s) :
    (claim_actions s w lim now).1 = (queuedRows s w).take lim
    ∧ ((claim_actions s w lim now).1).Pairwise (fun a b => a.id < b.id)
    ∧ (∀ r ∈ (claim_actions s w lim now).1,
        r ∈ s.rows ∧ r.worker = w ∧ r.status = "queued")
    ∧ ((claim_actions s w lim now).1).length = min lim (queuedRows s w).length
    ∧ (∀ r ∈ (claim_actions s w lim now).1, ∀ q ∈ queuedRows s w,
        q ∉ (claim_actions s w lim now).1 → r.id < q.id)
    ∧ ((claim_actions s w lim now).2).rows
        = s.rows.map (fun r =>
            if r ∈ (claim_actions s w lim now).1 then
              { r with status := "processing", updated_at := now }
            else r) := by
  have hbatch : (claim_actions s w lim now).1 = (queuedRows s w).take lim :=
    claimSelected_eq h w lim
  have hQ : (queuedRows s w).Pairwise (fun a b => a.id < b.id) := WF.queued_pairwise h w
  have hsplit : queuedRows s w = (queuedRows s w).take lim ++ (queuedRows s w).drop lim :=
    (List.take_append_drop lim (queuedRows s w)).symm
  refine ⟨hbatch, ?_, ?_, ?_, ?_, ?_⟩
  · rw [hbatch]
    exact List.Pairwise.sublist (List.take_sublist _ _) hQ
  · intro r hrb
    rw [hbatch] at hrb
    have hrQ : r ∈ queuedRows s w := List.mem_of_mem_take hrb
    have hq := List.of_mem_filter hrQ
    simp only [isQueuedFor, Bool.and_eq_true, beq_iff_eq] at hq
    exact ⟨List.mem_of_mem_filter hrQ, hq.1, hq.2⟩
  · rw [hbatch, List.length_take]
  · intro r hrb q hqQ hqnb
    rw [hbatch] at hrb hqnb
    have hqdrop : q ∈ (queuedRows s w).drop lim := by
      rcases List.mem_append.mp (hsplit ▸ hqQ) with h₁ | h₂
      · exact absurd h₁ hqnb
      · exact h₂
    have hcross := (List.pairwise_append.mp (hsplit ▸ hQ)).2.2
    exact hcross r hrb q hqdrop
  · rw [hbatch]
    exact claim_rows_eq h w lim now

/-- A small mixed-status, mixed-worker store used for witnesses. -/
def demoStore : StoreState :=
  { nextId := 5
    rows :=
      [{ id := 1, worker := "terminal", action_type := "command", payload := "{}",
         idempotency_key := "a", status := "queued", created_at := 0, updated_at := 0 },
       { id := 2, worker := "browser", action_type := "browser_task", payload := "{}",
         idempotency_key := "b", status := "queued", created_at := 0, updated_at := 0 },
       { id := 3, worker := "terminal", action_type := "command", payload := "{}",
         idempotency_key := "c", status := "done", created_at := 0, updated_at := 0 },
       { id := 4, worker := "terminal", action_type := "command", payload := "{}",
         idempotency_key := "d", status := "queued", created_at := 0, updated_at := 0 }]
    memory := [] }

/-- C2 witness: claiming one terminal action from the demo store. -/
theorem claim_actions_fifo_witness :
    WF demoStore
    ∧ (claim_actions demoStore "terminal" 1 9).1
        = (queuedRows demoStore "terminal").take 1 :=
  ⟨by decide, (claim_actions_fifo demoStore "terminal" 1 9 (by decide)).1⟩

/-- A sequence of `claim_actions` critical sections on the same worker
(the store lock serializes concurrent callers into such a sequence),
one per caller with that caller's limit, collecting each returned batch. -/
def claim_fold (w : String) (now : Nat) : List Nat → StoreState → List (List Row) × StoreState
  | [], s => ([], s)
  | n :: ns, s =>
      let c := claim_actions s w n now
      let rest := claim_fold w now ns c.2
      (c.1 :: rest.1, rest.2)

/-- Sequential claims chop the queued list into successive segments: the
concatenation of the returned batches is the `take` of the original
queued list at the summed limits. -/
lemma claim_fold_flatten (w : String) (now : Nat) :
    ∀ (ns : List Nat) (s : StoreState), WF s →
      ((claim_fold w now ns s).1).flatten = (queuedRows s w).take ns.sum := by
  intro ns
  induction ns with
  | nil => intro s _; simp [claim_fold]
  | cons n ns ih =>
      intro s h
      have hbatch : (claim_actions s w n now).1 = (queuedRows s w).take n :=
        claimSelected_eq h w n
      simp only [claim_fold, List.flatten_cons]
      rw [ih _ (WF_claim_actions h w n now), queuedRows_claim h w n now, hbatch,
        List.sum_cons, ← List.take_add]

/-- C3 amended: for any serialized sequence of `claim_actions` callers on
worker `w` (limits `ns`), the returned batches are successive segments of
the queued list: their concatenated id lists form the `take (sum ns)` of
the queued ids, the per-caller id lists are pairwise disjoint (no action
claimed twice), and when the limits cover the queue
(`#queued ≤ sum ns`) the union is exactly the originally queued list (no
loss).  Without that coverage the union can fall short of the full set. -/
theorem claim_fold_exclusive (s : StoreState) (w : String) (now : Nat) (ns : List Nat)
    (h : WF s) :
    ((claim_fold w now ns s).1.map (List.map Row.id)).flatten
        = ((queuedRows s w).map Row.id).take ns.sum
    ∧ ((claim_fold w now ns s).1.map (List.map Row.id)).Pairwise List.Disjoint
    ∧ ((queuedRows s w).length ≤ ns.sum →
        ((claim_fold w now ns s).1).flatten = queuedRows s w) := by
  have hmain := claim_fold_flatten w now ns s h
  have h1 : ((claim_fold w now ns s).1.map (List.map Row.id)).flatten
      = ((queuedRows s w).map Row.id).take ns.sum := by
    rw [← List.map_flatten, hmain, List.map_take]
  refine ⟨h1, ?_, ?_⟩
  · have hnd : (((claim_fold w now ns s).1.map (List.map Row.id)).flatten).Nodup := by
      rw [h1]
      exact (nodup_ids (WF.queued_pairwise h w)).sublist (List.take_sublist _ _)
    exact (List.nodup_flatten.mp hnd).2
  · intro hlen
    rw [hmain, List.take_of_length_le hlen]

/-- C3 witness: two serialized callers with limits 1 and 5 on the demo
store claim disjoint id sets. -/
theorem claim_fold_exclusive_witness :
    ((claim_fold "terminal" 0 [1, 5] demoStore).1.map (List.map Row.id)).Pairwise
      List.Disjoint :=
  (claim_fold_exclusive demoStore "terminal" 0 [1, 5] (by decide)).2.1

/-- A store with two queued terminal actions, for the C3 counterexample. -/
def splitStore : StoreState :=
  { nextId := 3
    rows :=
      [{ id := 1, worker := "terminal", action_type := "command", payload := "{}",
         idempotency_key := "a", status := "queued", created_at := 0, updated_at := 0 },
       { id := 2, worker := "terminal", action_type := "command", payload := "{}",
         idempotency_key := "b", status := "queued", created_at := 0, updated_at := 0 }]
    memory := [] }

/-- C3 counterexample: with two queued actions and a single caller whose
limit is 1, the union of the returned action-id sets is {1}, not the full
originally-queued set {1, 2} — the union only covers the queue when the
callers' limits do. -/
theorem claim_fold_union_not_full :
    ((claim_fold "terminal" 0 [1] splitStore).1.map (List.map Row.id)).flatten
      ≠ (queuedRows splitStore "terminal").map Row.id := by
  rw [← List.map_flatten, claim_fold_flatten "terminal" 0 [1] splitStore (by decide)]
  decide

lemma find?_map_val {α : Type} (l : List Row) (f : Row → Row)
    (hf : ∀ r, (f r).id = r.id) (i : Nat) (v : Row → α) :
    ((l.map f).find? (fun t => t.id == i)).map v
      = (l.find? (fun t => t.id == i)).map (fun t => v (f t)) := by
  rw [List.find?_map,
    show ((fun t : Row => t.id == i) ∘ f) = (fun t : Row => t.id == i) from
      funext fun t => by simp [Function.comp, hf],
    Option.map_map]
  rfl

lemma rowStatus_eq_find (s : StoreState) (i : Nat) :
    rowStatus s i = (s.rows.find? (fun t => t.id == i)).map Row.status := rfl

/-- The effect of `mark_action_status` on any row's visible status. -/
lemma rowStatus_mark (s : StoreState) (i j : Nat) (st : String) (now : Nat) :
    rowStatus (mark_action_status s i st now) j
      = (s.rows.find? (fun t => t.id == j)).map
          (fun t => if (t.id == i) = true then st else t.status) := by
  have h0 : rowStatus (mark_action_status s i st now) j
      = ((s.rows.map (fun t =>
            if t.id == i then { t with status := st, updated_at := now } else t)).find?
          (fun t => t.id == j)).map Row.status := rfl
  rw [h0, find?_map_val s.rows _ (fun t => by
      by_cases hc : (t.id == i) = true
      · rw [if_pos hc]
      · rw [if_neg hc]) j Row.status]
  congr 1
  funext t
  by_cases hc : (t.id == i) = true
  · rw [if_pos hc, if_pos hc]
  · rw [if_neg hc, if_neg hc]

lemma rowStatus_mark_self (s : StoreState) (i : Nat)
    (hex : ∃ r ∈ s.rows, r.id = i) (st : String) (now : Nat) :
    rowStatus (mark_action_status s i st now) i = some st := by
  obtain ⟨r, hr, rfl⟩ := hex
  rw [rowStatus_mark]
  have hsome : (s.rows.find? (fun t => t.id == r.id)).isSome :=
    List.find?_isSome.mpr ⟨r, hr, by simp⟩
  rcases hfind : s.rows.find? (fun t => t.id == r.id) with _ | r₀
  · rw [hfind] at hsome
    simp at hsome
  · have hid : r₀.id = r.id := by simpa using List.find?_some hfind
    rw [hfind]
    simp [hid]

lemma rowStatus_mark_other (s : StoreState) {i j : Nat} (hne : j ≠ i)
    (st : String) (now : Nat) :
    rowStatus (mark_action_status s i st now) j = rowStatus s j := by
  rw [rowStatus_mark, rowStatus_eq_find]
  rcases hfind : s.rows.find? (fun t => t.id == j) with _ | t₀
  · rw [hfind]
    rfl
  · have hj : t₀.id = j := by simpa using List.find?_some hfind
    rw [hfind]
    simp [hj, hne]

/-- A second row table after the claim, seen through `rowStatus`. -/
lemma rowStatus_claim (s : StoreState) (h : WF s) (w : String) (lim now : Nat) (i : Nat) :
    rowStatus ((claim_actions s w lim now).2) i
      = (s.rows.find? (fun t => t.id == i)).map
          (fun t => if t ∈ (queuedRows s w).take lim then "processing" else t.status) := by
  rw [rowStatus_eq_find, claim_rows_eq h w lim now,
    find?_map_val s.rows _ (fun r => by
      by_cases hm : r ∈ (queuedRows s w).take lim
      · rw [if_pos hm]
      · rw [if_neg hm]) i Row.status]
  congr 1
  funext t
  by_cases hm : t ∈ (queuedRows s w).take lim
  · rw [if_pos hm, if_pos hm]
  · rw [if_neg hm, if_neg hm]

/-- Store obtained by queueing one action and marking it `'done'`. -/
def c4afterDone : StoreState :=
  mark_action_status ((queue_action emptyStore "terminal" "command" "{}" "k1" 0).2) 1 "done" 1

/-- The same store after a later `mark_action_status` with a different
terminal status. -/
def c4afterOverwrite : StoreState := mark_action_status c4afterDone 1 "failed" 2

/-- C4 counterexample: `mark_action_status` is an unconditional UPDATE —
an action already in the terminal state `'done'` is moved to `'failed'`
by a later call, so a terminal status can change again. -/
theorem mark_action_status_escapes_terminal :
    rowStatus c4afterDone 1 = some "done"
    ∧ rowStatus c4afterOverwrite 1 = some "failed" := by
  constructor <;> rfl

/-- C4 amended: `claim_actions` never moves an action out of a
non-`'queued'` (in particular terminal) status — its selection requires
`status = 'queued'` — and `mark_action_status` repeated with the same
status is idempotent on every visible status; but a `mark_action_status`
call with a different status overwrites even a terminal status, so
terminal states are stable only against claims and same-status re-marks. -/
theorem terminal_status_stable (s : StoreState) (h : WF s) (i : Nat) (st w : String)
    (lim now : Nat) (hst : rowStatus s i = some st) (hnq : st ≠ "queued") :
    rowStatus ((claim_actions s w lim now).2) i = some st
    ∧ ∀ (s₂ : StoreState) (i₂ n₁ n₂ j : Nat) (st₂ : String),
        rowStatus (mark_action_status (mark_action_status s₂ i₂ st₂ n₁) i₂ st₂ n₂) j
          = rowStatus (mark_action_status s₂ i₂ st₂ n₁) j := by
  constructor
  · rw [rowStatus_claim s h w lim now i]
    rw [rowStatus_eq_find] at hst
    rcases hfind : s.rows.find? (fun t => t.id == i) with _ | r₀
    · rw [hfind] at hst
      simp at hst
    · rw [hfind] at hst
      have hstat : r₀.status = st := by simpa using hst
      have hnot : r₀ ∉ (queuedRows s w).take lim := by
        intro hmem
        have hq := List.of_mem_filter (List.mem_of_mem_take hmem)
        simp only [isQueuedFor, Bool.and_eq_true, beq_iff_eq] at hq
        exact hnq (hstat ▸ hq.2)
      rw [hfind]
      simp [hnot, hstat]
  · intro s₂ i₂ n₁ n₂ j st₂
    rw [rowStatus_mark (mark_action_status s₂ i₂ st₂ n₁) i₂ j st₂ n₂, rowStatus_eq_find]
    rcases hfind : (mark_action_status s₂ i₂ st₂ n₁).rows.find? (fun t => t.id == j)
      with _ | t₀
    · rw [hfind]
      rfl
    · have ht₀mem : t₀ ∈ (mark_action_status s₂ i₂ st₂ n₁).rows :=
        List.mem_of_find?_eq_some hfind
      have hrows : (mark_action_status s₂ i₂ st₂ n₁).rows
          = s₂.rows.map (fun t =>
              if t.id == i₂ then { t with status := st₂, updated_at := n₁ } else t) := rfl
      rw [hrows] at ht₀mem
      rcases List.mem_map.mp ht₀mem with ⟨r, hrm, rfl⟩
      rw [hfind]
      by_cases hc : r.id = i₂
      · simp [hc]
      · simp [hc]

/-- C4 witness: after claiming everything for the terminal worker in the
demo store, the `'done'` row keeps its status. -/
theorem terminal_status_stable_witness :
    rowStatus ((claim_actions demoStore "terminal" 10 9).2) 3 = some "done" :=
  (terminal_status_stable demoStore (by decide) 3 "done" "terminal" 10 9
    (by decide) (by decide)).1

/-- The accumulated store after marking a list of actions `'done'` one by
one, as the worker loop does on a fully successful batch. -/
def mark_done_fold (now : Nat) (l : List Row) (s : StoreState) : StoreState :=
  l.foldl (fun t x => mark_action_status t x.id "done" now) s

lemma mark_done_fold_cons (now : Nat) (a : Row) (l : List Row) (s : StoreState) :
    mark_done_fold now (a :: l) s
      = mark_done_fold now l (mark_action_status s a.id "done" now) := rfl

lemma WF_mark_done_fold (now : Nat) :
    ∀ (l : List Row) (s : StoreState), WF s → WF (mark_done_fold now l s) := by
  intro l
  induction l with
  | nil => intro s h; exact h
  | cons a tl ih =>
      intro s h
      rw [mark_done_fold_cons]
      exact ih _ (WF_mark_action_status h a.id "done" now)

lemma exists_id_mark (s : StoreState) (i₂ : Nat) (st : String) (now : Nat) {j : Nat}
    (hex : ∃ r ∈ s.rows, r.id = j) :
    ∃ r ∈ (mark_action_status s i₂ st now).rows, r.id = j := by
  obtain ⟨r, hr, rfl⟩ := hex
  refine ⟨_, List.mem_map_of_mem
    (fun t => if t.id == i₂ then { t with status := st, updated_at := now } else t) hr, ?_⟩
  by_cases hc : (r.id == i₂) = true
  · rw [if_pos hc]
  · rw [if_neg hc]

lemma exists_id_claim (s : StoreState) (w : String) (lim now : Nat) {j : Nat}
    (hex : ∃ r ∈ s.rows, r.id = j) :
    ∃ r ∈ ((claim_actions s w lim now).2).rows, r.id = j := by
  obtain ⟨r, hr, rfl⟩ := hex
  refine ⟨_, List.mem_map_of_mem
    (fun t => if ((claimSelected s w lim).map Row.id).contains t.id then
        { t with status := "processing", updated_at := now } else t) hr, ?_⟩
  by_cases hc : (((claimSelected s w lim).map Row.id).contains r.id) = true
  · rw [if_pos hc]
  · rw [if_neg hc]

lemma exists_id_mark_done_fold (now : Nat) :
    ∀ (l : List Row) (s : StoreState) {j : Nat}, (∃ r ∈ s.rows, r.id = j) →
      ∃ r ∈ (mark_done_fold now l s).rows, r.id = j := by
  intro l
  induction l with
  | nil => intro s j hex; exact hex
  | cons a tl ih =>
      intro s j hex
      rw [mark_done_fold_cons]
      exact ih _ (exists_id_mark s a.id "done" now hex)

lemma rowStatus_mark_done_fold_not_mem (now : Nat) :
    ∀ (l : List Row) (s : StoreState) {j : Nat}, j ∉ l.map Row.id →
      rowStatus (mark_done_fold now l s) j = rowStatus s j := by
  intro l
  induction l with
  | nil => intro s j _; rfl
  | cons a tl ih =>
      intro s j hj
      simp only [List.map_cons, List.mem_cons] at hj
      push_neg at hj
      rw [mark_done_fold_cons, ih _ hj.2, rowStatus_mark_other _ hj.1]

lemma rowStatus_mark_done_fold_mem (now : Nat) :
    ∀ (l : List Row) (s : StoreState), (l.map Row.id).Nodup →
      (∀ x ∈ l, ∃ r ∈ s.rows, r.id = x.id) →
      ∀ x ∈ l, rowStatus (mark_done_fold now l s) x.id = some "done" := by
  intro l
  induction l with
  | nil => intro s _ _ x hx; cases hx
  | cons a tl ih =>
      intro s hnd hmem x hx
      rw [List.map_cons] at hnd
      rcases List.nodup_cons.mp hnd with ⟨hnotin, hndtl⟩
      rw [mark_done_fold_cons]
      rcases List.mem_cons.mp hx with rfl | hx₂
      · rw [rowStatus_mark_done_fold_not_mem now tl _ hnotin]
        exact rowStatus_mark_self s x.id (hmem x (List.mem_cons_self x tl)) "done" now
      · exact ih _ hndtl
          (fun y hy => exists_id_mark s a.id "done" now (hmem y (List.mem_cons_of_mem a hy)))
          x hx₂

lemma run_batch_all_ok (ex : Row → Except String Unit) (now : Nat) :
    ∀ (l : List Row) (s : StoreState), (∀ x ∈ l, ex x = Except.ok ()) →
      run_batch ex now l s = (mark_done_fold now l s, Except.ok ()) := by
  intro l
  induction l with
  | nil => intro s _; rfl
  | cons a tl ih =>
      intro s hok
      have ha := hok a (List.mem_cons_self a tl)
      simp only [run_batch, ha, mark_done_fold_cons]
      exact ih _ (fun x hx => hok x (List.mem_cons_of_mem a hx))

lemma run_batch_split (ex : Row → Except String Unit) (now : Nat) (e : String) (a : Row) :
    ∀ (pre post : List Row) (s : StoreState), (∀ x ∈ pre, ex x = Except.ok ()) →
      ex a = Except.error e →
      run_batch ex now (pre ++ a :: post) s
        = (mark_action_status (mark_done_fold now pre s) a.id "failed" now,
           Except.error e) := by
  intro pre
  induction pre with
  | nil =>
      intro post s _ ha
      simp only [List.nil_append, run_batch, ha]
      rfl
  | cons b tl ih =>
      intro post s hok ha
      have hb := hok b (List.mem_cons_self b tl)
      simp only [List.cons_append, run_batch, hb, mark_done_fold_cons]
      exact ih post _ (fun x hx => hok x (List.mem_cons_of_mem b hx)) ha

/-- Every row returned by `claim_actions` was a `'queued'` row of the
table it was selected from. -/
lemma claim_batch_queued (u : StoreState) (w₂ : String) (lim₂ now₂ : Nat) :
    ∀ t ∈ (claim_actions u w₂ lim₂ now₂).1, t ∈ u.rows ∧ t.status = "queued" := by
  intro t ht
  have ht₂ : t ∈ (u.rows.filter (isQueuedFor w₂)).mergeSort
      (fun a b => decide (a.id ≤ b.id)) := List.mem_of_mem_take ht
  have ht₃ : t ∈ u.rows.filter (isQueuedFor w₂) := List.mem_mergeSort.mp ht₂
  have hq := List.of_mem_filter ht₃
  simp only [isQueuedFor, Bool.and_eq_true, beq_iff_eq] at hq
  exact ⟨List.mem_of_mem_filter ht₃, hq.2⟩

/-- Every claimed row reads back as `'processing'` in the post-claim
store. -/
lemma rowStatus_claimed_processing {s : StoreState} (h : WF s) (w : String) (lim now : Nat) :
    ∀ x ∈ (claim_actions s w lim now).1,
      rowStatus ((claim_actions s w lim now).2) x.id = some "processing" := by
  intro x hx
  have hb : (claim_actions s w lim now).1 = (queuedRows s w).take lim :=
    claimSelected_eq h w lim
  rw [hb] at hx
  have hxrows : x ∈ s.rows := List.mem_of_mem_filter (List.mem_of_mem_take hx)
  rw [rowStatus_claim s h w lim now x.id, find?_id_of_mem h.1 hxrows]
  simp [hx]

/-- C6: within a worker's claimed-batch loop (`run_cycle`), actions are
executed in order; when every execution succeeds, each action of the
batch is marked `'done'` and the loop returns normally; when the
execution of an action `a` raises after a prefix of successes, that
prefix is marked `'done'`, `a` is marked `'failed'`, and the exception
propagates out of the loop instead of being swallowed. -/
theorem run_cycle_marks_and_propagates
    (ex : Row → Except String Unit) (now : Nat) (s : StoreState)
    (pre post : List Row) (a : Row) (e : String)
    (hpre : ∀ x ∈ pre, ex x = Except.ok ())
    (hnd : ((pre ++ a :: post).map Row.id).Nodup)
    (hmem : ∀ x ∈ pre ++ a :: post, ∃ r ∈ s.rows, r.id = x.id) :
    (run_batch ex now pre s = (mark_done_fold now pre s, Except.ok ())
      ∧ ∀ x ∈ pre, rowStatus (run_batch ex now pre s).1 x.id = some "done")
    ∧ (ex a = Except.error e →
        (run_batch ex now (pre ++ a :: post) s).2 = Except.error e
        ∧ rowStatus (run_batch ex now (pre ++ a :: post) s).1 a.id = some "failed"
        ∧ ∀ x ∈ pre,
            rowStatus (run_batch ex now (pre ++ a :: post) s).1 x.id = some "done") := by
  rw [List.map_append] at hnd
  rcases List.nodup_append.mp hnd with ⟨hpre_nd, _, hdisj⟩
  have hanotpre : a.id ∉ pre.map Row.id := fun hmem₂ => hdisj hmem₂ (by simp)
  have hmem_pre : ∀ x ∈ pre, ∃ r ∈ s.rows, r.id = x.id :=
    fun x hx => hmem x (List.mem_append_left _ hx)
  have hok_eq := run_batch_all_ok ex now pre s hpre
  constructor
  · refine ⟨hok_eq, ?_⟩
    intro x hx
    rw [hok_eq]
    exact rowStatus_mark_done_fold_mem now pre s hpre_nd hmem_pre x hx
  · intro ha
    have hrun := run_batch_split ex now e a pre post s hpre ha
    refine ⟨by rw [hrun], ?_, ?_⟩
    · rw [hrun]
      exact rowStatus_mark_self _ a.id
        (exists_id_mark_done_fold now pre s (hmem a (by simp))) "failed" now
    · intro x hx
      have hxne : x.id ≠ a.id := fun he =>
        hanotpre (he ▸ List.mem_map_of_mem Row.id hx)
      rw [hrun]
      rw [rowStatus_mark_other _ hxne]
      exact rowStatus_mark_done_fold_mem now pre s hpre_nd hmem_pre x hx

/-- Rows used by the C6 witness: a batch of two claimed (processing)
actions whose second execution fails. -/
def wrowOk : Row :=
  { id := 1, worker := "terminal", action_type := "command", payload := "{}",
    idempotency_key := "w1", status := "processing", created_at := 0, updated_at := 0 }

/-- Second witness row (its execution fails). -/
def wrowBad : Row :=
  { id := 2, worker := "terminal", action_type := "command", payload := "{}",
    idempotency_key := "w2", status := "processing", created_at := 0, updated_at := 0 }

/-- Witness store holding the two claimed rows. -/
def wstore : StoreState := { nextId := 3, rows := [wrowOk, wrowBad], memory := [] }

/-- Execution oracle for the witnesses: the action with id 1 succeeds,
every other one raises. -/
def demoEx : Row → Except String Unit :=
  fun r => if r.id = 1 then Except.ok () else Except.error "boom"

/-- C6 witness: the failing action of a concrete batch ends `'failed'`. -/
theorem run_cycle_marks_and_propagates_witness :
    rowStatus (run_batch demoEx 7 ([wrowOk] ++ wrowBad :: []) wstore).1 wrowBad.id
      = some "failed" :=
  (((run_cycle_marks_and_propagates demoEx 7 wstore [wrowOk] [] wrowBad "boom"
      (by intro x hx; rw [List.mem_singleton] at hx; subst hx; rfl)
      (by decide) (by decide)).2) rfl).2.1

/-- C10: when the execution of one claimed action raises, only that
action is marked `'failed'`: the actions before it in the batch are
`'done'`, the error propagates, and every action after it is neither
executed nor re-marked — it stays `'processing'` in the final store and
can never be returned by a later `claim_actions` call (for any worker,
limit and time), because claims select only `'queued'` rows. -/
theorem failed_action_strands_rest (s : StoreState) (w : String) (lim now : Nat)
    (ex : Row → Except String Unit) (pre post : List Row) (a : Row) (e : String)
    (h : WF s)
    (hsplit : (claim_actions s w lim now).1 = pre ++ a :: post)
    (hpre : ∀ x ∈ pre, ex x = Except.ok ())
    (ha : ex a = Except.error e) :
    (run_batch ex now (pre ++ a :: post) ((claim_actions s w lim now).2)).2 = Except.error e
    ∧ rowStatus (run_batch ex now (pre ++ a :: post) ((claim_actions s w lim now).2)).1 a.id
        = some "failed"
    ∧ (∀ x ∈ pre,
        rowStatus (run_batch ex now (pre ++ a :: post) ((claim_actions s w lim now).2)).1 x.id
          = some "done")
    ∧ (∀ x ∈ post,
        rowStatus (run_batch ex now (pre ++ a :: post) ((claim_actions s w lim now).2)).1 x.id
          = some "processing")
    ∧ (∀ x ∈ post, ∀ (w₂ : String) (lim₂ now₂ : Nat),
        x.id ∉ ((claim_actions
            (run_batch ex now (pre ++ a :: post) ((claim_actions s w lim now).2)).1
            w₂ lim₂ now₂).1.map Row.id)) := by
  have hWF₂ : WF ((claim_actions s w lim now).2) := WF_claim_actions h w lim now
  have hbatch_pw : (pre ++ a :: post).Pairwise (fun x y => x.id < y.id) := by
    have hb : (claim_actions s w lim now).1 = (queuedRows s w).take lim :=
      claimSelected_eq h w lim
    rw [← hsplit, hb]
    exact List.Pairwise.sublist (List.take_sublist _ _) (WF.queued_pairwise h w)
  have hnd : ((pre ++ a :: post).map Row.id).Nodup := nodup_ids hbatch_pw
  have hmem_batch : ∀ x ∈ pre ++ a :: post, x ∈ s.rows := by
    intro x hx
    rw [← hsplit] at hx
    exact (claim_batch_queued s w lim now x hx).1
  have hmem₂ : ∀ x ∈ pre ++ a :: post,
      ∃ r ∈ ((claim_actions s w lim now).2).rows, r.id = x.id :=
    fun x hx => exists_id_claim s w lim now ⟨x, hmem_batch x hx, rfl⟩
  rw [List.map_append] at hnd
  rcases List.nodup_append.mp hnd with ⟨hpre_nd, _, hdisj⟩
  have hmem_pre : ∀ x ∈ pre, ∃ r ∈ ((claim_actions s w lim now).2).rows, r.id = x.id :=
    fun x hx => hmem₂ x (List.mem_append_left _ hx)
  have hrun := run_batch_split ex now e a pre post ((claim_actions s w lim now).2) hpre ha
  have hWFfinal :
      WF (mark_action_status (mark_done_fold now pre ((claim_actions s w lim now).2))
            a.id "failed" now) :=
    WF_mark_action_status (WF_mark_done_fold now pre _ hWF₂) a.id "failed" now
  have hprocessing : ∀ x ∈ post,
      rowStatus (run_batch ex now (pre ++ a :: post) ((claim_actions s w lim now).2)).1 x.id
        = some "processing" := by
    intro x hx
    have hxne_a : x.id ≠ a.id := by
      intro he
      have hpw := (List.pairwise_append.mp hbatch_pw).2.1
      have := (List.pairwise_cons.mp hpw).1 x hx
      omega
    have hxnot_pre : x.id ∉ pre.map Row.id := by
      intro hmem₃
      exact hdisj hmem₃ (by
        rw [List.map_cons]
        exact List.mem_cons_of_mem _ (List.mem_map_of_mem Row.id hx))
    rw [hrun]
    rw [rowStatus_mark_other _ hxne_a, rowStatus_mark_done_fold_not_mem now pre _ hxnot_pre]
    exact rowStatus_claimed_processing h w lim now x
      (by rw [hsplit]; exact List.mem_append_right _ (List.mem_cons_of_mem a hx))
  refine ⟨by rw [hrun], ?_, ?_, hprocessing, ?_⟩
  · rw [hrun]
    exact rowStatus_mark_self _ a.id
      (exists_id_mark_done_fold now pre _ (hmem₂ a (by simp))) "failed" now
  · intro x hx
    have hxne : x.id ≠ a.id := fun he =>
      (hdisj (he ▸ List.mem_map_of_mem Row.id hx) (by simp))
    rw [hrun]
    rw [rowStatus_mark_other _ hxne]
    exact rowStatus_mark_done_fold_mem now pre _ hpre_nd hmem_pre x hx
  · intro x hx w₂ lim₂ now₂ hc
    rcases List.mem_map.mp hc with ⟨t, htmem, htid⟩
    have htq := claim_batch_queued
      (run_batch ex now (pre ++ a :: post) ((claim_actions s w lim now).2)).1
      w₂ lim₂ now₂ t htmem
    have htstat :
        rowStatus (run_batch ex now (pre ++ a :: post) ((claim_actions s w lim now).2)).1 t.id
          = some t.status := by
      rw [hrun] at htq ⊢
      rw [rowStatus_eq_find, find?_id_of_mem hWFfinal.1 htq.1]
      rfl
    rw [htid] at htstat
    rw [hprocessing x hx] at htstat
    have : t.status = "processing" := by
      have := htstat.symm
      simpa using this
    rw [htq.2] at this
    simp at this

/-- Three queued terminal rows for the C10 witness. -/
def triRow1 : Row :=
  { id := 1, worker := "terminal", action_type := "command", payload := "{}",
    idempotency_key := "t1", status := "queued", created_at := 0, updated_at := 0 }

/-- Second witness row: its execution fails under `demoEx`. -/
def triRow2 : Row :=
  { id := 2, worker := "terminal", action_type := "command", payload := "{}",
    idempotency_key := "t2", status := "queued", created_at := 0, updated_at := 0 }

/-- Third witness row: claimed but never executed. -/
def triRow3 : Row :=
  { id := 3, worker := "terminal", action_type := "command", payload := "{}",
    idempotency_key := "t3", status := "queued", created_at := 0, updated_at := 0 }

/-- Witness store holding the three queued rows. -/
def triStore : StoreState := { nextId := 4, rows := [triRow1, triRow2, triRow3], memory := [] }

/-- C10 witness: after the second action of a claimed batch of three
fails, the third stays `'processing'`. -/
theorem failed_action_strands_rest_witness :
    rowStatus (run_batch demoEx 1 ([triRow1] ++ triRow2 :: [triRow3])
        ((claim_actions triStore "terminal" 10 1).2)).1 triRow3.id
      = some "processing" :=
  ((failed_action_strands_rest triStore "terminal" 10 1 demoEx [triRow1] [triRow3] triRow2
      "boom" (by decide)
      ((claimSelected_eq (by decide) "terminal" 10).trans (by decide))
      (by intro x hx; rw [List.mem_singleton] at hx; subst hx; rfl)
      rfl).2.2.2.1) triRow3 (by simp)

end AgentCore
